import Mathlib

/-!
# Verification of the watcher-bots repository

A shallow embedding, in Lean 4, of the pure core of the four watcher bots
(`mnstry_watch.py`, `bots/shop-sale-watcher/src/bot.py`,
`bots/canyon-product-watcher/src/bot.py`, `tracker.py`), together with
theorems settling the specification claims about them.

Modelling conventions:
* Python floats are modelled as rationals (`ℚ`); all prices handled by the
  bots are short decimal literals, and every claim under study is about
  comparisons and arithmetic that rationals render exactly.
* Fallible effects (HTTP fetch, file read, JSON decode, Telegram send) are
  modelled by `Option` / `Except` inputs to the cycle functions: a failed
  fetch of any kind (request exception, non-200 status, blocked page,
  wrong content type, unparsable body) is the `none` input, because each
  bot funnels every one of those outcomes into the same early-return path.
* Code that raises an exception to its caller is given an `Except` result
  type, with `Except.error` standing for the raised exception.
-/

/-- Python's `x or default` on an optional string field coming out of
`dict.get`: `None` and the empty string (both falsy) select the default. -/
def pyOrStr (v : Option String) (d : String) : String :=
  match v with
  | none => d
  | some s => if s = "" then d else s

/-- A Shopify product variant as consumed by `collect_deals`.  The fields
hold the results of `to_float(v.get("price"))`,
`to_float(v.get("compare_at_price"))` and `v.get("id")`; `to_float`
returns `None` exactly when the raw value is missing or unparsable. -/
structure Variant where
  price : Option ℚ
  compare_at_price : Option ℚ
  id : Option Int
deriving DecidableEq

/-- A Shopify product record (`p.get("title")`, `p.get("handle")`,
`p.get("variants", [])`). -/
structure Product where
  title : Option String
  handle : Option String
  variants : List Variant
deriving DecidableEq

/-- One discounted variant, as built by `collect_deals` in
`mnstry_watch.py` and `shop-sale-watcher`. -/
structure Deal where
  title : String
  url : String
  variant_id : Int
  price : ℚ
  compare_at : ℚ
  discount_abs : ℚ
  discount_pct : ℚ
deriving DecidableEq

/-- `calc_discount(compare_at, price)` from `mnstry_watch.py` (and
identically `shop-sale-watcher`): absolute discount always, percentage 0
when `compare_at <= 0` to avoid division by zero. -/
def calc_discount (compare_at price : ℚ) : ℚ × ℚ :=
  let discount_abs := compare_at - price
  if compare_at ≤ 0 then (discount_abs, 0)
  else (discount_abs, discount_abs / compare_at * 100)

/-! ## Deal ranking (`rank_deals`)

Both `mnstry_watch.py` and `shop-sale-watcher` sort with
`key = lambda d: (-d["discount_pct"], -d["discount_abs"], d["price"], d["variant_id"])`.
Python compares key tuples lexicographically, so we embed the comparator as
a lexicographic order on the key quadruple.  Python's `sorted` is a stable
sort by a total preorder; its output is therefore the unique stable
ordering, which `List.insertionSort` (also stable) computes as well. -/

/-- Lexicographic combination of an order on the first component with an
order on the second. -/
def lexPair {α β : Type} (ra : α → α → Prop) (sb : β → β → Prop) :
    α × β → α × β → Prop :=
  fun x y => ra x.1 y.1 ∨ (x.1 = y.1 ∧ sb x.2 y.2)

instance {α β : Type} (ra : α → α → Prop) (sb : β → β → Prop)
    [DecidableEq α] [DecidableRel ra] [DecidableRel sb] :
    DecidableRel (lexPair ra sb) := by
  unfold lexPair
  exact fun x y => inferInstance

theorem lexPair_trans {α β : Type} {ra : α → α → Prop} {sb : β → β → Prop}
    (hra : ∀ x y z, ra x y → ra y z → ra x z)
    (hsb : ∀ x y z, sb x y → sb y z → sb x z) :
    ∀ x y z, lexPair ra sb x y → lexPair ra sb y z → lexPair ra sb x z := by
  rintro ⟨x1, x2⟩ ⟨y1, y2⟩ ⟨z1, z2⟩ hxy hyz
  rcases hxy with h1 | ⟨e1, h1⟩
  · rcases hyz with h2 | ⟨e2, h2⟩
    · exact Or.inl (hra _ _ _ h1 h2)
    · exact Or.inl (e2 ▸ h1)
  · rcases hyz with h2 | ⟨e2, h2⟩
    · exact Or.inl (e1 ▸ h2)
    · exact Or.inr ⟨e1.trans e2, hsb _ _ _ h1 h2⟩

theorem lexPair_total {α β : Type} {ra : α → α → Prop} {sb : β → β → Prop}
    (hra : ∀ x y, ra x y ∨ x = y ∨ ra y x)
    (hsb : ∀ x y, sb x y ∨ sb y x) :
    ∀ x y, lexPair ra sb x y ∨ lexPair ra sb y x := by
  rintro ⟨x1, x2⟩ ⟨y1, y2⟩
  rcases hra x1 y1 with h | h | h
  · exact Or.inl (Or.inl h)
  · rcases hsb x2 y2 with h2 | h2
    · exact Or.inl (Or.inr ⟨h, h2⟩)
    · exact Or.inr (Or.inr ⟨h.symm, h2⟩)
  · exact Or.inr (Or.inl h)

/-- The Python sort key: `(-discount_pct, -discount_abs, price, variant_id)`. -/
def dealKey (d : Deal) : ℚ × ℚ × ℚ × Int :=
  (-d.discount_pct, -d.discount_abs, d.price, d.variant_id)

/-- Lexicographic "less or equal" on sort keys — exactly how Python
compares the key tuples. -/
def keyLE : ℚ × ℚ × ℚ × Int → ℚ × ℚ × ℚ × Int → Prop :=
  lexPair (fun a b => a < b)
    (lexPair (fun a b => a < b)
      (lexPair (fun a b => a < b) (fun a b => a ≤ b)))

instance : DecidableRel keyLE := by
  unfold keyLE
  exact fun x y => inferInstance

/-- `d` sorts before-or-with `e` under `rank_deals`. -/
def dealR (d e : Deal) : Prop := keyLE (dealKey d) (dealKey e)

instance : DecidableRel dealR := fun d e =>
  inferInstanceAs (Decidable (keyLE (dealKey d) (dealKey e)))

theorem keyLE_trans : ∀ x y z, keyLE x y → keyLE y z → keyLE x z := by
  unfold keyLE
  refine lexPair_trans (fun x y z => lt_trans) ?_
  refine lexPair_trans (fun x y z => lt_trans) ?_
  exact lexPair_trans (fun x y z => lt_trans) (fun x y z => le_trans)

theorem keyLE_total : ∀ x y, keyLE x y ∨ keyLE y x := by
  unfold keyLE
  refine lexPair_total (fun x y => lt_trichotomy x y) ?_
  refine lexPair_total (fun x y => lt_trichotomy x y) ?_
  exact lexPair_total (fun x y => lt_trichotomy x y) (fun x y => le_total x y)

instance : IsTrans Deal dealR :=
  ⟨fun _ _ _ h h2 => keyLE_trans _ _ _ h h2⟩

instance : IsTotal Deal dealR :=
  ⟨fun d e => keyLE_total (dealKey d) (dealKey e)⟩

/-- Unfolded characterisation of `dealR`, phrased the way the spec words
the order: percentage discount descending, then absolute discount
descending, then current price ascending, then variant id ascending. -/
theorem dealR_iff (d e : Deal) :
    dealR d e ↔
      (e.discount_pct < d.discount_pct ∨
        (e.discount_pct = d.discount_pct ∧
          (e.discount_abs < d.discount_abs ∨
            (e.discount_abs = d.discount_abs ∧
              (d.price < e.price ∨
                (d.price = e.price ∧ d.variant_id ≤ e.variant_id)))))) := by
  unfold dealR keyLE lexPair dealKey
  constructor
  · rintro (h | ⟨e1, h | ⟨e2, h⟩⟩)
    · exact Or.inl (by linarith [neg_lt_neg_iff.mp h])
    · exact Or.inr ⟨by linarith [neg_inj.mp e1], Or.inl (by linarith [neg_lt_neg_iff.mp h])⟩
    · exact Or.inr ⟨by linarith [neg_inj.mp e1], Or.inr ⟨by linarith [neg_inj.mp e2], h⟩⟩
  · rintro (h | ⟨e1, h | ⟨e2, h⟩⟩)
    · exact Or.inl (by simpa using neg_lt_neg h)
    · exact Or.inr ⟨by simp [e1], Or.inl (by simpa using neg_lt_neg h)⟩
    · exact Or.inr ⟨by simp [e1], Or.inr ⟨by simp [e2], h⟩⟩

/-- Keys of two deals tied on percentage, absolute discount and the strict
part of the tie-breaks are antisymmetric: equal keys mean equal key. -/
theorem keyLE_antisymm (x y : ℚ × ℚ × ℚ × Int) :
    keyLE x y → keyLE y x → x = y := by
  obtain ⟨x1, x2, x3, x4⟩ := x
  obtain ⟨y1, y2, y3, y4⟩ := y
  unfold keyLE lexPair
  rintro (h | ⟨e1, h | ⟨e2, h | ⟨e3, h⟩⟩⟩) (h2 | ⟨f1, h2 | ⟨f2, h2 | ⟨f3, h2⟩⟩⟩) <;>
    simp_all <;> first
      | (exact absurd h (by simp_all; linarith))
      | (exact absurd h2 (by simp_all; linarith))
      | omega

/-- `rank_deals` (identical in `mnstry_watch.py` and `shop-sale-watcher`):
stable sort by the key `(-pct, -abs, price, variant_id)`. -/
def rank_deals (deals : List Deal) : List Deal :=
  List.insertionSort dealR deals

/-! ## Shared dynamic values, state records and Python primitives -/

/-- A dynamic Python/JSON value, the possible results of `json.load`. -/
inductive PyVal where
  | pynone : PyVal
  | pybool : Bool → PyVal
  | pynum : ℚ → PyVal
  | pystr : String → PyVal
  | pylist : List PyVal → PyVal
  | pydict : List (String × PyVal) → PyVal

/-- What reading a state file can yield: the file is absent, its contents
fail to decode as JSON, or it decodes to some `PyVal`. -/
inductive FileRead where
  | missing : FileRead
  | invalid : FileRead
  | valid : PyVal → FileRead

/-- The persisted record of `mnstry_watch.py` and `shop-sale-watcher`:
`{"sale_active": ..., "last_signature": ...}`. -/
structure WatchState where
  sale_active : Bool
  last_signature : String
deriving DecidableEq

/-- Substring test, Python's `needle in hay`. -/
def strContains (hay needle : String) : Bool :=
  decide (needle.toList <:+: hay.toList)

/-- Character-wise lower-casing, Python's `str.lower()` on the ASCII
texts these bots compare (shop names and product keywords). -/
def lowerAscii (s : String) : String := String.mk (s.toList.map Char.toLower)

/-- Digit run to a natural number (most significant first). -/
def digitsVal (l : List Char) : ℕ :=
  l.foldl (fun acc c => acc * 10 + (c.toNat - Char.toNat '0')) 0

/-- `float()` on an unsigned string over the alphabet {digits, `.`, `-`}:
accepts `ddd`, `ddd.`, `ddd.ddd` and `.ddd`; anything else (stray `-`,
second `.`, empty) raises, modelled as `none`. -/
def pyFloatUnsigned (l : List Char) : Option ℚ :=
  let intPart := l.takeWhile (fun c => c ≠ '.')
  match l.dropWhile (fun c => c ≠ '.') with
  | [] =>
    if intPart ≠ [] ∧ intPart.all Char.isDigit then some (digitsVal intPart) else none
  | _ :: frac =>
    if (intPart ≠ [] ∨ frac ≠ []) ∧ intPart.all Char.isDigit ∧ frac.all Char.isDigit
    then some ((digitsVal intPart : ℚ) + (digitsVal frac : ℚ) / (10 : ℚ) ^ frac.length)
    else none

/-- `float()` over the alphabet {digits, `.`, `-`}: an optional leading
minus sign, then an unsigned decimal literal. -/
def pyFloat (l : List Char) : Option ℚ :=
  if l.head? = some '-' then (pyFloatUnsigned l.tail).map (fun q => -q)
  else pyFloatUnsigned l

/-- Left-pad to two digits. -/
def pad2 (n : ℕ) : String :=
  if n < 10 then "0" ++ toString n else toString n

/-- A rendering of `f"{q:.2f}"`.  The signature strings it feeds are
diagnostic only (the spec forbids using them for transition logic), so
the rounding mode is immaterial to every claim. -/
def fmt2 (q : ℚ) : String :=
  let n : Int := Int.floor (q * 100 + 1/2)
  let sgn := if n < 0 then "-" else ""
  let m := n.natAbs
  sgn ++ toString (m / 100) ++ "." ++ pad2 (m % 100)

/-- The diagnostic top-deal signature
`f"{d0.get('variant_id',0)}|{d0['compare_at']:.2f}>{d0['price']:.2f}"`,
or `""` when there is no deal. -/
def topSignature (ranked : List Deal) : String :=
  match ranked with
  | [] => ""
  | d0 :: _ =>
    toString d0.variant_id ++ "|" ++ fmt2 d0.compare_at ++ ">" ++ fmt2 d0.price

namespace Mnstry

def MNSTRY_BASE : String := "https://mnstry.com"

def MNSTRY_HOME : String := MNSTRY_BASE ++ "/"

def TOP_N : ℕ := 5

/-- `load_state` of `mnstry_watch.py`.  A missing file yields the default;
otherwise `json.load` runs with no exception handling, so an undecodable
file raises `json.decoder.JSONDecodeError` to the caller, and whatever
JSON value the file holds — whatever its shape — is returned untouched. -/
def load_state : FileRead → Except String PyVal
  | .missing => .ok (.pydict [("sale_active", .pybool false), ("last_signature", .pystr "")])
  | .invalid => .error "json.decoder.JSONDecodeError"
  | .valid v => .ok v

/-- The deal a single variant contributes in `collect_deals`, if any:
both prices must have parsed and `cap > price` (strictly, no tolerance). -/
def variantDeal (title url : String) (v : Variant) : Option Deal :=
  match v.price, v.compare_at_price with
  | some price, some cap =>
    if cap > price then
      some { title := title, url := url, variant_id := v.id.getD 0,
             price := price, compare_at := cap,
             discount_abs := (calc_discount cap price).1,
             discount_pct := (calc_discount cap price).2 }
    else none
  | _, _ => none

/-- The deals one product contributes in `collect_deals` (inner loop). -/
def productDeals (p : Product) : List Deal :=
  let title := pyOrStr p.title "MNSTRY Product"
  let handle := pyOrStr p.handle ""
  let url := if handle ≠ "" then MNSTRY_BASE ++ "/products/" ++ handle else MNSTRY_HOME
  p.variants.filterMap (variantDeal title url)

/-- `collect_deals` of `mnstry_watch.py`: all discounted variants in
order, the number of products with at least one discounted variant, and
the number of discounted variants.  No deduplication happens here. -/
def collect_deals (products : List Product) : List Deal × ℕ × ℕ :=
  let deals := products.flatMap productDeals
  (deals,
   (products.filter (fun p => !(productDeals p).isEmpty)).length,
   deals.length)

/-- One poll cycle of `mnstry_watch.main`, from the loaded state value.
`data = none` is any fetch without a usable JSON document (non-200
status or an unparsable body make `http_get_json` return `None`; a raised
request exception likewise aborts `main` before any state write): the
cycle returns without touching the state.  On success it notifies exactly
on the `False → True` edge of `sale_active` and always saves the new
state.  The returned `Bool` says whether the sale notification fired. -/
def mainCycle (prev : WatchState) (data : Option (List Product)) :
    WatchState × Bool :=
  match data with
  | none => (prev, false)
  | some products =>
    let deals := (collect_deals products).1
    let sale_now := decide (0 < deals.length)
    let ranked := rank_deals deals
    let top5 := ranked.take TOP_N
    let signature := topSignature top5
    let notified := !prev.sale_active && sale_now
    ({ sale_active := sale_now, last_signature := signature }, notified)

/-- A sequence of poll cycles, counting the cycles that notified. -/
def mainCycles (st : WatchState) :
    List (Option (List Product)) → WatchState × ℕ
  | [] => (st, 0)
  | d :: ds =>
    let r := mainCycle st d
    let rest := mainCycles r.1 ds
    (rest.1, (if r.2 then 1 else 0) + rest.2)

/-- The catalog condition observed in one cycle: some discounted variant
exists. -/
def saleNow (products : List Product) : Bool :=
  decide (0 < (collect_deals products).1.length)

end Mnstry

namespace ShopSale

def TOP_N : ℕ := 5

def NOTIFY_SALE_END : Bool := false

/-- Inner variant loop of `shop-sale-watcher`'s `collect_deals`,
threading the cross-product `seen_variant_ids` set: a variant whose
(defaulted) id was already seen is skipped entirely; otherwise its id is
recorded and it becomes a deal exactly when `cap > price` (strict, no
tolerance). -/
def collectVariants (title url : String) :
    List Int → List Variant → List Int × List Deal
  | seen, [] => (seen, [])
  | seen, v :: vs =>
    match v.price, v.compare_at_price with
    | some price, some cap =>
      let vid := v.id.getD 0
      if vid ∈ seen then collectVariants title url seen vs
      else
        let seen2 := seen ++ [vid]
        if cap > price then
          let r := collectVariants title url seen2 vs
          (r.1, { title := title, url := url, variant_id := vid,
                  price := price, compare_at := cap,
                  discount_abs := (calc_discount cap price).1,
                  discount_pct := (calc_discount cap price).2 } :: r.2)
        else collectVariants title url seen2 vs
    | _, _ => collectVariants title url seen vs

/-- Outer product loop of `shop-sale-watcher`'s `collect_deals`. -/
def collectProducts (base home : String) :
    List Int → List Product → List Int × List Deal × ℕ × ℕ
  | _, [] => ([], [], 0, 0)
  | seen, p :: ps =>
    let title := pyOrStr p.title "Product"
    let handle := pyOrStr p.handle ""
    let url := if handle ≠ "" then base ++ "/products/" ++ handle else home
    let r := collectVariants title url seen p.variants
    let rest := collectProducts base home r.1 ps
    (rest.1, r.2 ++ rest.2.1,
     (if r.2.isEmpty then rest.2.2.1 else rest.2.2.1 + 1),
     r.2.length + rest.2.2.2)

/-- `collect_deals` of `shop-sale-watcher`: as the mnstry one, but with
variant-id deduplication across the whole call. -/
def collect_deals (products : List Product) (base home : String) :
    List Deal × ℕ × ℕ :=
  let r := collectProducts base home [] products
  (r.2.1, r.2.2.1, r.2.2.2)

/-- `run_once_for_target` of `shop-sale-watcher`, from the loaded state
value.  `data = none` is any fetch without usable JSON (`http_get_json`
returns `None` on request exception, non-200 status, non-JSON
content-type, or unparsable body): the loaded state is returned
unchanged with no notifications.  On success, the `False → True` edge
queues the two notification messages (`NOTIFY_SALE_END` is `False`, so
the end-of-sale branch never queues anything) and the updated state is
returned for persistence.  Result: (state to persist, queued
notification count). -/
def run_once_for_target (base home : String) (state : WatchState)
    (data : Option (List Product)) : WatchState × ℕ :=
  match data with
  | none => (state, 0)
  | some products =>
    let deals := (collect_deals products base home).1
    let sale_now := decide (0 < deals.length)
    let ranked := rank_deals deals
    let top := ranked.take TOP_N
    let signature := topSignature top
    let was_active := state.sale_active
    let notifs := (if !was_active && sale_now then 2 else 0)
      + (if was_active && !sale_now && NOTIFY_SALE_END then 1 else 0)
    ({ sale_active := sale_now, last_signature := signature }, notifs)

/-- One target iteration of `shop-sale-watcher.main` (one attempt of the
retry loop).  In DRY_RUN nothing is sent or saved.  Otherwise every
queued message goes through `telegram_send`, which raises on HTTP
failure; a raise aborts the iteration *before* `save_state` is reached,
so the state file keeps its old value.  `sendRaises` models
`telegram_send` raising (deterministically, so retries fail the same
way).  Result: (persisted state value after the cycle, whether
`save_state` ran). -/
def mainCycle (base home : String) (st : WatchState)
    (data : Option (List Product)) (dry : Bool) (sendRaises : Bool) :
    WatchState × Bool :=
  let r := run_once_for_target base home st data
  if dry then (st, false)
  else if 0 < r.2 ∧ sendRaises then (st, false)
  else (r.1, true)

end ShopSale

/-! ## Target-id sanitisation (canyon & shop-sale, identical code) -/

/-- The characters Python's `str.strip()` removes (ASCII whitespace plus
the common Unicode spaces; target ids are ASCII in practice and no safe
character is ever one of these). -/
def isPySpace (c : Char) : Bool :=
  c == ' ' || c == '\t' || c == '\n' || c == '\r' || c == '\x0b' ||
    c == '\x0c' || c == '\x85' || c == '\xa0'

/-- `str.strip()`. -/
def pyStrip (l : List Char) : List Char :=
  ((l.dropWhile isPySpace).reverse.dropWhile isPySpace).reverse

/-- Membership in the character class `[A-Za-z0-9_-]`. -/
def isSafeChar (c : Char) : Bool :=
  ('A' ≤ c && c ≤ 'Z') || ('a' ≤ c && c ≤ 'z') || ('0' ≤ c && c ≤ '9') ||
    c == '_' || c == '-'

/-- Scan for `re.sub(r"[^A-Za-z0-9_-]+", "_", ·)`: the flag records
whether the previous character belonged to an unsafe run whose single
replacement underscore was already emitted. -/
def squashAux : Bool → List Char → List Char
  | _, [] => []
  | inRun, c :: cs =>
    if isSafeChar c then c :: squashAux false cs
    else if inRun then squashAux true cs
    else '_' :: squashAux true cs

/-- `re.sub(r"[^A-Za-z0-9_-]+", "_", ·)`: each maximal run of unsafe
characters collapses to a single underscore. -/
def squashUnsafe (l : List Char) : List Char := squashAux false l

/-- `sanitize_target_id` (identical in `canyon-product-watcher` and
`shop-sale-watcher`): strip, then replace each run of characters outside
`[A-Za-z0-9_-]` with one underscore. -/
def sanitize_target_id (target_id : String) : String :=
  String.mk (squashUnsafe (pyStrip target_id.toList))

namespace Canyon

def DEFAULT_STATE : List (String × PyVal) :=
  [("sale_active", .pybool false), ("last_price", .pynone),
   ("last_original_price", .pynone), ("last_signature", .pystr "")]

/-- Python dict lookup on a JSON-decoded object (with duplicate keys,
`json.loads` keeps the last occurrence). -/
def pyGet (d : List (String × PyVal)) (k : String) : Option PyVal :=
  (d.reverse.find? (fun kv => kv.1 == k)).map (fun kv => kv.2)

/-- `load_state` of `canyon-product-watcher`: a missing or undecodable
file yields the default; a decodable file is normalised onto the default
keys — non-dict JSON contributes nothing, and a dict overrides exactly
the default keys it carries.  No input makes it raise. -/
def load_state : FileRead → List (String × PyVal)
  | .missing => DEFAULT_STATE
  | .invalid => DEFAULT_STATE
  | .valid (.pydict d) =>
    DEFAULT_STATE.map (fun kv =>
      match pyGet d kv.1 with
      | some v => (kv.1, v)
      | none => kv)
  | .valid _ => DEFAULT_STATE

/-! ### `parse_price` -/

/-- The characters `re.sub(r"[^0-9,\.\-]", "", ·)` keeps.  The earlier
`replace` calls of `parse_price` (non-breaking space to space,
apostrophes removed) only delete characters this class would delete
anyway, so stripping is one filter. -/
def keepChar (c : Char) : Bool :=
  c.isDigit || c == ',' || c == '.' || c == '-'

/-- `re.search(r"\d+\.\d{2}$", s)`: the string ends in digit, dot, digit,
digit — the `\d+` requires at least one digit immediately before the
dot. -/
def endsDigitDotTwoDigits (s : List Char) : Bool :=
  match s.reverse with
  | c1 :: c2 :: c3 :: c4 :: _ => c1.isDigit && c2.isDigit && (c3 = '.') && c4.isDigit
  | _ => false

/-- Index of the first element satisfying `p`, if any. -/
def firstIdx (p : Char → Bool) : List Char → Option ℕ
  | [] => none
  | c :: cs => if p c then some 0 else (firstIdx p cs).map (fun i => i + 1)

/-- Python's `s.rfind(c)`: the highest index holding `c`, or `-1`. -/
def rfind (s : List Char) (c : Char) : Int :=
  match firstIdx (fun x => x == c) s.reverse with
  | some i => (s.length : Int) - 1 - i
  | none => -1

/-- The separator normalisation step of `parse_price` (the body of its
`if has_dot and has_comma ... elif ... else` ladder, verbatim). -/
def codeNormalize (s : List Char) : List Char :=
  if s.contains '.' && s.contains ',' then
    let decimal_sep := if rfind s '.' > rfind s ',' then '.' else ','
    let thousands_sep := if decimal_sep = '.' then ',' else '.'
    (s.filter (fun c => c ≠ thousands_sep)).map
      (fun c => if c = decimal_sep then '.' else c)
  else if s.contains ',' then
    s.map (fun c => if c = ',' then '.' else c)
  else if s.contains '.' then
    if endsDigitDotTwoDigits s then s else s.filter (fun c => c ≠ '.')
  else s

/-- `parse_price` of `canyon-product-watcher`: strip to
`[0-9,.-]`; with both separators, the later one is decimal and the other
is removed; with only commas, comma is decimal; with only dots, the dot
stays exactly when the string ends in digit-dot-digit-digit and is
removed (as grouping) otherwise; finally Python `float` parses the
result, `None` on failure. -/
def parse_price (raw : String) : Option ℚ :=
  if raw = "" then none
  else
    let s := raw.toList.filter keepChar
    if s = [] then none
    else pyFloat (codeNormalize s)

/-! ### The target cycle (`run_target`) -/

/-- The persisted record of `canyon-product-watcher`. -/
structure CState where
  sale_active : Bool
  last_price : Option ℚ
  last_original_price : Option ℚ
  last_signature : String
deriving DecidableEq

/-- `sale_active_now`: an original (struck-through) price exists and
exceeds the current price by more than one cent. -/
def saleActiveNow (current : ℚ) (original : Option ℚ) : Bool :=
  match original with
  | none => false
  | some o => decide (o > current + 1/100)

/-- `build_signature` of `canyon-product-watcher`. -/
def build_signature (current original : Option ℚ) (sale : Bool) : String :=
  let c := match current with | none => "" | some q => fmt2 q
  let o := match original with | none => "" | some q => fmt2 q
  "sale=" ++ (if sale then "1" else "0") ++ "|current=" ++ c ++ "|original=" ++ o

/-- The three things `telegram_send` can do for the caller: return
`True`, return `False` (Telegram answered `ok: false`), or raise. -/
inductive SendOutcome where
  | ok : SendOutcome
  | failed : SendOutcome
  | raised : SendOutcome
deriving DecidableEq

/-- The per-target summary line `run_target` prints. -/
inductive Summary where
  | no_change : Summary
  | notify : Summary
  | would_notify : Summary
deriving DecidableEq

/-- `run_target` of `canyon-product-watcher`, from the loaded state value
`prev`.  `obs = none` is any cycle without a usable observation
(`fetch_html` returns `None` on request exception, non-200 status or a
blocked page; `extract_current_price` returns `None` on an unparsable
body): the function returns before any state write.  On an observation
`(current_price, original_price)`, the notification fires exactly on the
`False → True` edge; `telegram_send` runs inside `try/except` with
`sent = False` on a raise, and both the `sent` and the not-`sent` branch
call `save_state(next_state)` — so the persisted value does not depend
on `send`.  In dry-run mode nothing is sent or saved.  Result:
(persisted state value, sale notification attempted, summary line). -/
def run_target (prev : CState) (obs : Option (ℚ × Option ℚ)) (dry : Bool)
    (send : SendOutcome) : CState × Bool × Summary :=
  match obs with
  | none => (prev, false, .no_change)
  | some (current_price, original_price) =>
    let sale_active_now := saleActiveNow current_price original_price
    let next : CState :=
      { sale_active := sale_active_now,
        last_price := some current_price,
        last_original_price := original_price,
        last_signature :=
          build_signature (some current_price) original_price sale_active_now }
    let should_notify := !prev.sale_active && sale_active_now
    if should_notify then
      if dry then (prev, false, .would_notify)
      else
        let sent := send = SendOutcome.ok
        (next, true, if sent then .notify else .no_change)
    else
      if dry then (prev, false, .no_change)
      else (next, false, .no_change)

end Canyon

namespace Tracker

def PRICE_LIMIT : ℚ := 400

def EUR_TO_CHF : ℚ := 97/100

def MIN_REASONABLE_PRICE : ℚ := 100

def ALLOWED_SHOPS : List String :=
  ["digitec", "galaxus", "brack", "microspot", "amazon", "decathlon",
   "sportxx", "interdiscount", "mediamarkt"]

/-- The persisted record of `tracker.py`: `{"seen": [...], "errors": [...]}`. -/
structure TState where
  seen : List String
  errors : List String
deriving DecidableEq

/-- One match of `re.findall(r"(CHF|EUR)\s?([0-9’'\s]+[.,][0-9]{2})", text)`:
the currency group and the numeric group. -/
structure PriceToken where
  cur : String
  num : String
deriving DecidableEq

/-- `num.replace("’", "").replace(" ", "").replace(",", ".")` — note the
ASCII apostrophe is *not* removed and any non-space whitespace the regex
admitted also survives. -/
def cleanNum (s : String) : List Char :=
  (s.toList.filter (fun c => c ≠ '’' ∧ c ≠ ' ')).map
    (fun c => if c = ',' then '.' else c)

/-- The CHF value of one regex match: `float` of the cleaned numeral
(`none` when `float` would raise, e.g. on a surviving ASCII apostrophe),
then the fixed EUR→CHF conversion when the currency group is `EUR`. -/
def tokenVal (m : PriceToken) : Option ℚ :=
  match pyFloat (cleanNum m.num) with
  | none => none
  | some v => some (if m.cur = "EUR" then v * EUR_TO_CHF else v)

/-- `extract_prices` over the regex matches of the page text: values are
computed in order, an unparsable numeral raises `ValueError` out of the
whole call, and a value is kept only when it reaches
`MIN_REASONABLE_PRICE`. -/
def extract_prices : List PriceToken → Except String (List ℚ)
  | [] => .ok []
  | m :: rest =>
    match tokenVal m with
    | none => .error "ValueError"
    | some v =>
      match extract_prices rest with
      | .error e => .error e
      | .ok l => .ok (if MIN_REASONABLE_PRICE ≤ v then v :: l else l)

/-- `shop_allowed`: some allowed shop name occurs in the lowered text. -/
def shop_allowed (text : String) : Bool :=
  ALLOWED_SHOPS.any (fun s => strContains (lowerAscii text) s)

/-- A fetched page as `check_source` consumes it: the flattened text and
the price-regex matches found in it. -/
structure Page where
  text : String
  tokens : List PriceToken

/-- `check_source` of `tracker.py` for one source.  `fetch = none` is a
raised fetch (request error, bad status, or blocked page): the
first failure of this source appends its name to `errors` and no alarm
can fire.  On a fetched page, the shop filter and the extracted prices
gate the alarm: it fires exactly when some price survived extraction and
the minimum is below `PRICE_LIMIT`.  An unparsable numeral makes
`extract_prices` raise out of `check_source` (`Except.error`).  Result:
(state, deal alarm fired). -/
def check_source (st : TState) (name : String) (fetch : Option Page) :
    Except String (TState × Bool) :=
  match fetch with
  | none =>
    if name ∈ st.errors then .ok (st, false)
    else .ok ({ st with errors := st.errors ++ [name] }, false)
  | some pg =>
    if shop_allowed pg.text then
      match extract_prices pg.tokens with
      | .error e => .error e
      | .ok [] => .ok (st, false)
      | .ok (p :: ps) =>
        let best := ps.foldl min p
        .ok (st, decide (best < PRICE_LIMIT))
    else .ok (st, false)

/-- An anchor element of the Enjoy365 page: its flattened text and its
href resolved to an absolute URL by `urljoin`. -/
structure Anchor where
  text : String
  url : String
deriving DecidableEq

/-- The keyword filter of `check_enjoy365`: the lowered link text
contains "garmin" or "forerunner". -/
def anchorMatches (a : Anchor) : Bool :=
  let t := lowerAscii a.text
  strContains t "garmin" || strContains t "forerunner"

/-- The anchor loop of `check_enjoy365`: a matching anchor whose resolved
URL is not yet in `seen` is appended to `seen` and notified, in page
order.  Result: (state, notified URLs in order). -/
def enjoyLoop (st : TState) : List Anchor → TState × List String
  | [] => (st, [])
  | a :: rest =>
    if anchorMatches a then
      if a.url ∈ st.seen then enjoyLoop st rest
      else
        let st2 := { st with seen := st.seen ++ [a.url] }
        let r := enjoyLoop st2 rest
        (r.1, a.url :: r.2)
    else enjoyLoop st rest

/-- `check_enjoy365` of `tracker.py`.  `fetch = none` is a raised fetch:
the first failure appends "Enjoy365" to `errors`, `seen` is untouched and
nothing is notified.  Otherwise the anchor loop runs. -/
def check_enjoy365 (st : TState) (fetch : Option (List Anchor)) :
    TState × List String :=
  match fetch with
  | none =>
    (if "Enjoy365" ∈ st.errors then st
     else { st with errors := st.errors ++ ["Enjoy365"] }, [])
  | some anchors => enjoyLoop st anchors

/-- A lifetime of Enjoy365 polls: one `check_enjoy365` per invocation,
state persisted between them, notifications accumulated in order. -/
def enjoyRuns (st : TState) : List (Option (List Anchor)) → TState × List String
  | [] => (st, [])
  | f :: fs =>
    let r := check_enjoy365 st f
    let r2 := enjoyRuns r.1 fs
    (r2.1, r.2 ++ r2.2)

end Tracker

namespace Canyon

/-- A sequence of canyon poll cycles for one target, counting the cycles
that fired a sale notification; the persisted state value threads
through. -/
def runSequence (dry : Bool) (send : SendOutcome) :
    CState → List (Option (ℚ × Option ℚ)) → CState × ℕ
  | st, [] => (st, 0)
  | st, o :: os =>
    let r := run_target st o dry send
    let rest := runSequence dry send r.1 os
    (rest.1, (if r.2.1 then 1 else 0) + rest.2)

/-! ### The specification's reading of `parse_price`

`specParsePrice strict` renders the spec sentence word for word: strip to
the kept class; `None` when no digits remain; with both separators
present the one occurring *last* is the decimal separator and the other
is dropped; a lone comma is the decimal separator; a lone dot is the
decimal separator exactly when followed by exactly two trailing digits —
with `strict = true` additionally requiring a digit right before the
dot, which is the amendment the code's regex `\d+\.\d{2}$` forces —
otherwise the dot is dropped as grouping; finally the result is `None`
when the normalised string does not parse as a number. -/

/-- The last `.` or `,` of the string: the first one of the reversal. -/
def lastSeparator (s : List Char) : Option Char :=
  s.reverse.find? (fun c => c == '.' || c == ',')

/-- "The dot is followed by exactly two trailing digits", i.e. the string
ends in dot-digit-digit and not in digit-digit-digit; with `strict` the
dot must also be preceded by a digit. -/
def specDotIsDecimal (strict : Bool) (s : List Char) : Bool :=
  match s.reverse with
  | c1 :: c2 :: c3 :: rest =>
    c1.isDigit && c2.isDigit && (c3 = '.') &&
      (!strict || (match rest with | c4 :: _ => c4.isDigit | [] => false))
  | _ => false

/-- The spec's separator normalisation: the last-occurring separator is
the decimal one, the other kind is dropped as grouping, a lone comma is
decimal, and a lone dot is decimal exactly when `specDotIsDecimal`. -/
def specNormalize (strict : Bool) (s : List Char) : List Char :=
  if lastSeparator s = some '.' then
    if s.contains ',' then s.filter (fun c => c ≠ ',')
    else if specDotIsDecimal strict s then s
    else s.filter (fun c => c ≠ '.')
  else if lastSeparator s = some ',' then
    if s.contains '.' then
      (s.filter (fun c => c ≠ '.')).map (fun c => if c = ',' then '.' else c)
    else s.map (fun c => if c = ',' then '.' else c)
  else s

/-- The numeric normaliser as the spec describes it (see above). -/
def specParsePrice (strict : Bool) (raw : String) : Option ℚ :=
  let s := raw.toList.filter keepChar
  if s.all (fun c => !c.isDigit) then none
  else pyFloat (specNormalize strict s)

end Canyon

/-! ## Sample inputs shared by witnesses -/

/-- A catalog with one discounted variant (price 100, compare-at 150). -/
def sampleDealProduct : Product :=
  { title := some "T", handle := some "h",
    variants := [{ price := some 100, compare_at_price := some 150, id := some 7 }] }

/-- A catalog variant whose compare-at price exceeds its price by exactly
one cent. -/
def onecentProduct : Product :=
  { title := some "T", handle := some "h",
    variants := [{ price := some 100, compare_at_price := some (100 + 1/100), id := some 1 }] }

/-! ## Helper lemmas -/

theorem variantDeal_sound (t u : String) (v : Variant) (d : Deal)
    (hv : Mnstry.variantDeal t u v = some d) : d.price < d.compare_at := by
  unfold Mnstry.variantDeal at hv
  rcases v with ⟨vp, vc, vi⟩
  rcases vp with _ | p0
  · simp at hv
  · rcases vc with _ | c0
    · simp at hv
    · dsimp only at hv
      split_ifs at hv with h
      obtain rfl := Option.some.inj hv
      simpa using h

theorem productDeals_sound (p : Product) (d : Deal)
    (hd : d ∈ Mnstry.productDeals p) : d.price < d.compare_at := by
  unfold Mnstry.productDeals at hd
  simp only [List.mem_filterMap] at hd
  obtain ⟨v, _, hv⟩ := hd
  exact variantDeal_sound _ _ v d hv

theorem collect_deals_sound (products : List Product) (d : Deal)
    (hd : d ∈ (Mnstry.collect_deals products).1) : d.price < d.compare_at := by
  unfold Mnstry.collect_deals at hd
  simp only [List.mem_flatMap] at hd
  obtain ⟨p, _, hp⟩ := hd
  exact productDeals_sound p d hp

theorem collect_deals_single (t h : Option String) (p c : ℚ) (i : Option Int) :
    (Mnstry.collect_deals [⟨t, h, [⟨some p, some c, i⟩]⟩]).1 ≠ [] ↔ p < c := by
  by_cases hpc : p < c
  · simp [Mnstry.collect_deals, Mnstry.productDeals, Mnstry.variantDeal, hpc]
  · simp [Mnstry.collect_deals, Mnstry.productDeals, Mnstry.variantDeal, hpc]

theorem shop_collect_single (base home : String) (t h : Option String)
    (p c : ℚ) (i : Option Int) :
    (ShopSale.collect_deals [⟨t, h, [⟨some p, some c, i⟩]⟩] base home).1 ≠ [] ↔ p < c := by
  by_cases hpc : p < c
  · simp [ShopSale.collect_deals, ShopSale.collectProducts, ShopSale.collectVariants, hpc]
  · simp [ShopSale.collect_deals, ShopSale.collectProducts, ShopSale.collectVariants, hpc]

theorem mainCycle_notified (prev : WatchState) (ps : List Product) :
    (Mnstry.mainCycle prev (some ps)).2 = (!prev.sale_active && Mnstry.saleNow ps) := rfl

theorem mainCycle_active (prev : WatchState) (ps : List Product) :
    ((Mnstry.mainCycle prev (some ps)).1).sale_active = Mnstry.saleNow ps := rfl

theorem run_target_notified (prev : Canyon.CState) (cur : ℚ) (orig : Option ℚ)
    (send : Canyon.SendOutcome) :
    (Canyon.run_target prev (some (cur, orig)) false send).2.1
      = (!prev.sale_active && Canyon.saleActiveNow cur orig) := by
  unfold Canyon.run_target
  by_cases hn : (!prev.sale_active && Canyon.saleActiveNow cur orig) = true
  · simp [hn]
  · simp only [Bool.not_eq_true] at hn
    simp [hn]

theorem run_target_active (prev : Canyon.CState) (cur : ℚ) (orig : Option ℚ)
    (send : Canyon.SendOutcome) :
    ((Canyon.run_target prev (some (cur, orig)) false send).1).sale_active
      = Canyon.saleActiveNow cur orig := by
  unfold Canyon.run_target
  by_cases hn : (!prev.sale_active && Canyon.saleActiveNow cur orig) = true
  · simp [hn]
  · simp only [Bool.not_eq_true] at hn
    simp [hn]

/-! ## Claim theorems -/

/-- C2: for every target, a failed fetch (request exception, non-200
status, blocked page, wrong content type, unparsable body — all of which
reach the cycle as the `none` observation) terminates the poll cycle
with the persisted state value exactly as it was, in all three
edge-triggered bots; in particular `sale_active` is unchanged, so a
failed fetch can never create an Active→Inactive edge. -/
theorem fetch_failure_preserves_state :
    (∀ s : WatchState, Mnstry.mainCycle s none = (s, false))
    ∧ (∀ (prev : Canyon.CState) (dry : Bool) (send : Canyon.SendOutcome),
        Canyon.run_target prev none dry send = (prev, false, .no_change))
    ∧ (∀ (base home : String) (s : WatchState),
        ShopSale.run_once_for_target base home s none = (s, 0))
    ∧ (∀ (base home : String) (s : WatchState) (dry sendRaises : Bool),
        (ShopSale.mainCycle base home s none dry sendRaises).1 = s) := by
  refine ⟨fun s => rfl, fun prev dry send => rfl, fun base home s => rfl, ?_⟩
  intro base home s dry sendRaises
  unfold ShopSale.mainCycle ShopSale.run_once_for_target
  split_ifs <;> simp_all

/-- C3: canyon's `load_state` maps a missing file, an undecodable file
and wrong-shape JSON all to the safe default and (being a total
function) never raises; but mnstry's `load_state` only defaults the
missing-file case — an undecodable state file raises
`json.decoder.JSONDecodeError` out of `load_state` (modelled as
`Except.error`), and wrong-shape JSON is returned unnormalised. -/
theorem load_state_normalisation :
    Canyon.load_state .missing = Canyon.DEFAULT_STATE
    ∧ Canyon.load_state .invalid = Canyon.DEFAULT_STATE
    ∧ Canyon.load_state (.valid (.pylist [])) = Canyon.DEFAULT_STATE
    ∧ Canyon.load_state (.valid (.pystr "oops")) = Canyon.DEFAULT_STATE
    ∧ Mnstry.load_state .missing =
        .ok (.pydict [("sale_active", .pybool false), ("last_signature", .pystr "")])
    ∧ Mnstry.load_state .invalid = .error "json.decoder.JSONDecodeError"
    ∧ Mnstry.load_state (.valid (.pylist [])) = .ok (.pylist []) :=
  ⟨rfl, rfl, rfl, rfl, rfl, rfl, rfl⟩

/-- C8: in the canyon bot the persisted state value after a successful
cycle does not depend on the notifier outcome at all (send succeeding,
returning failure, or raising); but in shop-sale-watcher, at a cycle
where a notification is due (here: previously inactive, catalog with a
discounted variant, so two messages are queued) and `telegram_send`
raises, the iteration aborts before `save_state` and the persisted value
stays the old one — the `False` `sale_active` survives and the alert
re-fires on the next successful send. -/
theorem send_outcome_vs_persistence :
    (∀ (prev : Canyon.CState) (obs : Option (ℚ × Option ℚ))
        (s1 s2 : Canyon.SendOutcome),
        (Canyon.run_target prev obs false s1).1 = (Canyon.run_target prev obs false s2).1)
    ∧ (ShopSale.run_once_for_target "b" "b/" ⟨false, ""⟩ (some [sampleDealProduct])).2 = 2
    ∧ ShopSale.mainCycle "b" "b/" ⟨false, ""⟩ (some [sampleDealProduct]) false true
        = (⟨false, ""⟩, false)
    ∧ ((ShopSale.run_once_for_target "b" "b/" ⟨false, ""⟩
          (some [sampleDealProduct])).1).sale_active = true := by
  refine ⟨?_, by decide, by decide, by decide⟩
  intro prev obs s1 s2
  cases obs with
  | none => rfl
  | some o =>
    obtain ⟨cur, orig⟩ := o
    unfold Canyon.run_target
    by_cases hn : (!prev.sale_active && Canyon.saleActiveNow cur orig) = true
    · simp [hn]
    · simp only [Bool.not_eq_true] at hn
      simp [hn]

/-- C1: notification is edge-triggered.  In both edge-triggered bots the
sale notification fires if and only if the persisted `sale_active` is
false and the newly observed condition is true; over any
Inactive-Active-Active run sequence exactly one notification fires
(whatever the initial persisted state); and an Active-to-Active poll
never notifies, whatever the observed prices (the decision reads only
the booleans). -/
theorem edge_triggered_notification :
    (∀ (prev : Canyon.CState) (cur : ℚ) (orig : Option ℚ) (send : Canyon.SendOutcome),
        (Canyon.run_target prev (some (cur, orig)) false send).2.1
          = (!prev.sale_active && Canyon.saleActiveNow cur orig))
    ∧ (∀ (prev : WatchState) (ps : List Product),
        (Mnstry.mainCycle prev (some ps)).2 = (!prev.sale_active && Mnstry.saleNow ps))
    ∧ (∀ (s0 : WatchState) (p1 p2 p3 : List Product),
        Mnstry.saleNow p1 = false → Mnstry.saleNow p2 = true → Mnstry.saleNow p3 = true →
        (Mnstry.mainCycles s0 [some p1, some p2, some p3]).2 = 1)
    ∧ (∀ (s0 : Canyon.CState) (send : Canyon.SendOutcome) (c1 c2 c3 : ℚ)
        (o1 o2 o3 : Option ℚ),
        Canyon.saleActiveNow c1 o1 = false → Canyon.saleActiveNow c2 o2 = true →
        Canyon.saleActiveNow c3 o3 = true →
        (Canyon.runSequence false send s0
          [some (c1, o1), some (c2, o2), some (c3, o3)]).2 = 1)
    ∧ (∀ (prev : Canyon.CState) (cur : ℚ) (orig : Option ℚ) (dry : Bool)
        (send : Canyon.SendOutcome),
        prev.sale_active = true →
        (Canyon.run_target prev (some (cur, orig)) dry send).2.1 = false)
    ∧ (∀ (prev : WatchState) (ps : List Product),
        prev.sale_active = true → (Mnstry.mainCycle prev (some ps)).2 = false) := by
  refine ⟨run_target_notified, mainCycle_notified, ?_, ?_, ?_, ?_⟩
  · intro s0 p1 p2 p3 h1 h2 h3
    have e1 : (Mnstry.mainCycle s0 (some p1)).2 = false := by
      rw [mainCycle_notified, h1]; simp
    have a1 : ((Mnstry.mainCycle s0 (some p1)).1).sale_active = false := by
      rw [mainCycle_active, h1]
    have e2 : (Mnstry.mainCycle (Mnstry.mainCycle s0 (some p1)).1 (some p2)).2 = true := by
      rw [mainCycle_notified, a1, h2]; rfl
    have a2 : ((Mnstry.mainCycle (Mnstry.mainCycle s0 (some p1)).1 (some p2)).1).sale_active
        = true := by
      rw [mainCycle_active, h2]
    have e3 : (Mnstry.mainCycle
        (Mnstry.mainCycle (Mnstry.mainCycle s0 (some p1)).1 (some p2)).1 (some p3)).2
        = false := by
      rw [mainCycle_notified, a2, h3]; rfl
    simp [Mnstry.mainCycles, e1, e2, e3]
  · intro s0 send c1 c2 c3 o1 o2 o3 h1 h2 h3
    have e1 : (Canyon.run_target s0 (some (c1, o1)) false send).2.1 = false := by
      rw [run_target_notified, h1]; simp
    have a1 : ((Canyon.run_target s0 (some (c1, o1)) false send).1).sale_active = false := by
      rw [run_target_active, h1]
    have e2 : (Canyon.run_target (Canyon.run_target s0 (some (c1, o1)) false send).1
        (some (c2, o2)) false send).2.1 = true := by
      rw [run_target_notified, a1, h2]; rfl
    have a2 : ((Canyon.run_target (Canyon.run_target s0 (some (c1, o1)) false send).1
        (some (c2, o2)) false send).1).sale_active = true := by
      rw [run_target_active, h2]
    have e3 : (Canyon.run_target (Canyon.run_target
        (Canyon.run_target s0 (some (c1, o1)) false send).1
        (some (c2, o2)) false send).1 (some (c3, o3)) false send).2.1 = false := by
      rw [run_target_notified, a2, h3]; rfl
    simp [Canyon.runSequence, e1, e2, e3]
  · intro prev cur orig dry send hprev
    cases dry <;> simp [Canyon.run_target, hprev]
  · intro prev ps h
    rw [mainCycle_notified, h]; rfl

/-- C1 witness: concrete Inactive-Active-Active sequences — mnstry from
an initially Active persisted state, canyon from an Inactive one — each
notify exactly once. -/
theorem edge_triggered_notification_witness :
    (Mnstry.mainCycles ⟨true, ""⟩
        [some [], some [sampleDealProduct], some [sampleDealProduct]]).2 = 1
    ∧ (Canyon.runSequence false .ok ⟨false, none, none, ""⟩
        [some (100, none), some (100, some 120), some (99, some 120)]).2 = 1 := by
  constructor
  · exact edge_triggered_notification.2.2.1 _ _ _ _ rfl rfl rfl
  · apply edge_triggered_notification.2.2.2.1
    · rfl
    · simp only [Canyon.saleActiveNow, gt_iff_lt, decide_eq_true_eq]
      norm_num
    · simp only [Canyon.saleActiveNow, gt_iff_lt, decide_eq_true_eq]
      norm_num

/-- C4 counterexample: a catalog variant whose compare-at price exceeds
its current price by exactly one cent *is* classified as a deal by the
catalog-JSON extractor (`cap > price`, no tolerance) in both
`mnstry_watch.py` and `shop-sale-watcher`, though the claimed
more-than-one-cent rule rejects it. -/
theorem onecent_deal_counterexample :
    (Mnstry.collect_deals [onecentProduct]).1.length = 1
    ∧ (ShopSale.collect_deals [onecentProduct] "b" "b/").1.length = 1
    ∧ ¬ ((100 : ℚ) + 1/100 > 100 + 1/100) := by
  have hlt : (100 : ℚ) < 100 + 1/100 := by norm_num
  refine ⟨?_, ?_, lt_irrefl _⟩
  · simp [Mnstry.collect_deals, Mnstry.productDeals, Mnstry.variantDeal,
      onecentProduct, hlt]
  · simp [ShopSale.collect_deals, ShopSale.collectProducts, ShopSale.collectVariants,
      onecentProduct, hlt]

/-- C4 amended: the catalog-JSON extractor (both bots) classifies a
variant with parsable prices as a deal exactly when its reference price
*strictly exceeds* its current price, with no tolerance; the
more-than-one-cent test exists only in the structured-metadata (canyon)
variant's `sale_active_now`. -/
theorem deal_threshold :
    (∀ (products : List Product) (d : Deal),
        d ∈ (Mnstry.collect_deals products).1 → d.price < d.compare_at)
    ∧ (∀ (t h : Option String) (p c : ℚ) (i : Option Int),
        (Mnstry.collect_deals [⟨t, h, [⟨some p, some c, i⟩]⟩]).1 ≠ [] ↔ p < c)
    ∧ (∀ (base home : String) (t h : Option String) (p c : ℚ) (i : Option Int),
        (ShopSale.collect_deals [⟨t, h, [⟨some p, some c, i⟩]⟩] base home).1 ≠ [] ↔ p < c)
    ∧ (∀ cur orig : ℚ,
        Canyon.saleActiveNow cur (some orig) = true ↔ cur + 1/100 < orig) := by
  refine ⟨collect_deals_sound, collect_deals_single, shop_collect_single, ?_⟩
  intro cur orig
  simp [Canyon.saleActiveNow, gt_iff_lt]

/-- C4 witness: the sample 150-versus-100 deal is produced by the
extractor and indeed has `price < compare_at`; the canyon test accepts
an original 1.02 francs above a current 100. -/
theorem deal_threshold_witness :
    ((100 : ℚ) < 150) ∧ Canyon.saleActiveNow 100 (some 102) = true := by
  constructor
  · refine deal_threshold.1 [sampleDealProduct]
      { title := "T", url := "https://mnstry.com/products/h", variant_id := 7,
        price := 100, compare_at := 150,
        discount_abs := (calc_discount 150 100).1,
        discount_pct := (calc_discount 150 100).2 } ?_
    have h : (Mnstry.collect_deals [sampleDealProduct]).1
        = [{ title := "T", url := "https://mnstry.com/products/h", variant_id := 7,
             price := 100, compare_at := 150,
             discount_abs := (calc_discount 150 100).1,
             discount_pct := (calc_discount 150 100).2 }] := rfl
    rw [h]
    exact List.mem_singleton_self _
  · exact (deal_threshold.2.2.2 100 102).mpr (by norm_num)

theorem dropWhile_of_all_false {α : Type} (p : α → Bool) (l : List α)
    (h : ∀ c ∈ l, p c = false) : l.dropWhile p = l := by
  cases l with
  | nil => rfl
  | cons a l =>
    rw [List.dropWhile_cons, h a (List.mem_cons_self a l)]
    simp

theorem safe_not_space (c : Char) (h : isSafeChar c = true) : isPySpace c = false := by
  by_contra hs
  simp only [Bool.not_eq_false] at hs
  simp only [isPySpace, Bool.or_eq_true, beq_iff_eq] at hs
  rcases hs with ((((((rfl | rfl) | rfl) | rfl) | rfl) | rfl) | rfl) | rfl <;>
    revert h <;> decide

theorem pyStrip_of_safe (l : List Char) (h : ∀ c ∈ l, isSafeChar c = true) :
    pyStrip l = l := by
  unfold pyStrip
  rw [dropWhile_of_all_false _ _ (fun c hc => safe_not_space c (h c hc))]
  rw [dropWhile_of_all_false _ _
    (fun c hc => safe_not_space c (h c (List.mem_reverse.mp hc)))]
  exact List.reverse_reverse l

theorem squashUnsafe_of_safe (l : List Char) (h : ∀ c ∈ l, isSafeChar c = true) :
    squashUnsafe l = l := by
  unfold squashUnsafe
  induction l with
  | nil => rfl
  | cons c cs ih =>
    unfold squashAux
    rw [if_pos (h c (List.mem_cons_self c cs)),
      ih (fun x hx => h x (List.mem_cons_of_mem c hx))]

/-- C7 counterexample: `sanitize_target_id` is not injective on distinct
non-empty ids — the distinct ids "a.b" and "a:b" both sanitise to "a_b",
so these two targets would share one persisted-state file. -/
theorem sanitize_collision_counterexample :
    sanitize_target_id "a.b" = "a_b" ∧ sanitize_target_id "a:b" = "a_b"
    ∧ ("a.b" : String) ≠ "a:b" ∧ ("a.b" : String) ≠ "" ∧ ("a:b" : String) ≠ "" :=
  ⟨rfl, rfl, by decide, by decide, by decide⟩

/-- C7 amended: `sanitize_target_id` is the identity on ids consisting
only of characters from `[A-Za-z0-9_-]`, hence injective on such
already-filesystem-safe ids; on arbitrary distinct ids it can collide
(see the counterexample), so key uniqueness is an obligation on the
configured ids, not a property of the function. -/
theorem sanitize_safe_identity :
    (∀ s : String, (∀ c ∈ s.toList, isSafeChar c = true) → sanitize_target_id s = s)
    ∧ (∀ s t : String, (∀ c ∈ s.toList, isSafeChar c = true) →
        (∀ c ∈ t.toList, isSafeChar c = true) →
        sanitize_target_id s = sanitize_target_id t → s = t) := by
  have hid : ∀ s : String, (∀ c ∈ s.toList, isSafeChar c = true) →
      sanitize_target_id s = s := by
    intro s hs
    unfold sanitize_target_id
    rw [pyStrip_of_safe _ hs, squashUnsafe_of_safe _ hs]
    cases s
    rfl
  exact ⟨hid, fun s t hs ht h => by rw [hid s hs, hid t ht] at h; exact h⟩

/-- C7 witness: a concrete already-safe id maps to itself. -/
theorem sanitize_safe_identity_witness : sanitize_target_id "abc-1" = "abc-1" :=
  sanitize_safe_identity.1 "abc-1" (by decide)

/-- Two deals tied on both discount measures, differing in price. -/
def dealA : Deal :=
  { title := "a", url := "u", variant_id := 1, price := 10, compare_at := 20,
    discount_abs := 10, discount_pct := 50 }

/-- As `dealA` but one franc dearer and with a higher variant id. -/
def dealB : Deal :=
  { title := "b", url := "u", variant_id := 2, price := 11, compare_at := 21,
    discount_abs := 10, discount_pct := 50 }

/-- C6: `rank_deals` realises a deterministic total order: its output is
sorted by (and a permutation under) the comparator `dealR`, which is
exactly percentage discount descending, then absolute discount
descending, then current price ascending, then variant id ascending;
`dealR` is total, antisymmetric at the key level, and on ties of both
discount measures the cheaper price — or, prices equal, the lower
variant id — sorts strictly first.  Determinism over identical inputs is
immediate since `rank_deals` is a pure function of its input list. -/
theorem rank_deals_deterministic_total_order :
    (∀ l, List.Sorted dealR (rank_deals l) ∧ (rank_deals l).Perm l)
    ∧ (∀ d e, dealR d e ∨ dealR e d)
    ∧ (∀ d e, dealR d e ↔
        (e.discount_pct < d.discount_pct ∨
          (e.discount_pct = d.discount_pct ∧
            (e.discount_abs < d.discount_abs ∨
              (e.discount_abs = d.discount_abs ∧
                (d.price < e.price ∨
                  (d.price = e.price ∧ d.variant_id ≤ e.variant_id)))))))
    ∧ (∀ x y, keyLE x y → keyLE y x → x = y)
    ∧ (∀ d e : Deal, d.discount_pct = e.discount_pct →
        d.discount_abs = e.discount_abs → d.price < e.price →
        dealR d e ∧ ¬ dealR e d)
    ∧ (∀ d e : Deal, d.discount_pct = e.discount_pct →
        d.discount_abs = e.discount_abs → d.price = e.price →
        d.variant_id < e.variant_id → dealR d e ∧ ¬ dealR e d) := by
  refine ⟨fun l => ⟨List.sorted_insertionSort dealR l, List.perm_insertionSort dealR l⟩,
    fun d e => keyLE_total (dealKey d) (dealKey e), dealR_iff, keyLE_antisymm, ?_, ?_⟩
  · intro d e h1 h2 h3
    constructor
    · rw [dealR_iff]
      exact Or.inr ⟨h1.symm, Or.inr ⟨h2.symm, Or.inl h3⟩⟩
    · rw [dealR_iff]
      rintro (h | ⟨e1, h | ⟨e2, h | ⟨e3, h⟩⟩⟩)
      · rw [h1] at h; exact lt_irrefl _ h
      · rw [h2] at h; exact lt_irrefl _ h
      · exact lt_asymm h3 h
      · rw [e3] at h3; exact lt_irrefl _ h3
  · intro d e h1 h2 h3 h4
    constructor
    · rw [dealR_iff]
      exact Or.inr ⟨h1.symm, Or.inr ⟨h2.symm, Or.inr ⟨h3, le_of_lt h4⟩⟩⟩
    · rw [dealR_iff]
      rintro (h | ⟨e1, h | ⟨e2, h | ⟨e3, h⟩⟩⟩)
      · rw [h1] at h; exact lt_irrefl _ h
      · rw [h2] at h; exact lt_irrefl _ h
      · rw [h3] at h; exact lt_irrefl _ h
      · omega
  
/-- C6 witness: on the two concrete tied deals, the cheaper `dealA`
sorts strictly before `dealB`. -/
theorem rank_deals_deterministic_total_order_witness :
    dealR dealA dealB ∧ ¬ dealR dealB dealA :=
  rank_deals_deterministic_total_order.2.2.2.2.1 dealA dealB rfl rfl (by norm_num [dealA, dealB])

theorem enjoyLoop_seen_pfx (anchors : List Tracker.Anchor) :
    ∀ st : Tracker.TState, st.seen <+: (Tracker.enjoyLoop st anchors).1.seen := by
  induction anchors with
  | nil => intro st; exact List.prefix_rfl
  | cons a rest ih =>
    intro st
    unfold Tracker.enjoyLoop
    by_cases hm : Tracker.anchorMatches a = true
    · rw [if_pos hm]
      by_cases hs : a.url ∈ st.seen
      · rw [if_pos hs]; exact ih st
      · rw [if_neg hs]
        dsimp only
        exact List.IsPrefix.trans (List.prefix_append _ _)
          (ih { st with seen := st.seen ++ [a.url] })
    · rw [if_neg hm]; exact ih st

theorem enjoyLoop_seen_not_notified (anchors : List Tracker.Anchor) :
    ∀ (st : Tracker.TState) (u : String),
      u ∈ st.seen → u ∉ (Tracker.enjoyLoop st anchors).2 := by
  induction anchors with
  | nil => intro st u _ h; exact absurd h (List.not_mem_nil u)
  | cons a rest ih =>
    intro st u hu
    unfold Tracker.enjoyLoop
    by_cases hm : Tracker.anchorMatches a = true
    · rw [if_pos hm]
      by_cases hs : a.url ∈ st.seen
      · rw [if_pos hs]; exact ih st u hu
      · rw [if_neg hs]
        dsimp only
        simp only [List.mem_cons, not_or]
        refine ⟨fun he => hs (he ▸ hu), ?_⟩
        exact ih _ u (List.mem_append_left _ hu)
    · rw [if_neg hm]; exact ih st u hu

theorem enjoyLoop_notified_seen (anchors : List Tracker.Anchor) :
    ∀ (st : Tracker.TState) (u : String),
      u ∈ (Tracker.enjoyLoop st anchors).2 → u ∈ (Tracker.enjoyLoop st anchors).1.seen := by
  induction anchors with
  | nil => intro st u h; exact absurd h (List.not_mem_nil u)
  | cons a rest ih =>
    intro st u
    unfold Tracker.enjoyLoop
    by_cases hm : Tracker.anchorMatches a = true
    · rw [if_pos hm]
      by_cases hs : a.url ∈ st.seen
      · rw [if_pos hs]; exact ih st u
      · rw [if_neg hs]
        dsimp only
        intro hmem
        rcases List.mem_cons.mp hmem with rfl | hmem2
        · refine (enjoyLoop_seen_pfx rest _).subset ?_
          exact List.mem_append_right _ (List.mem_singleton_self _)
        · exact ih _ u hmem2
    · rw [if_neg hm]; exact ih st u

theorem enjoyLoop_count_le_one (anchors : List Tracker.Anchor) :
    ∀ (st : Tracker.TState) (u : String),
      (Tracker.enjoyLoop st anchors).2.count u ≤ 1 := by
  induction anchors with
  | nil => intro st u; simp [Tracker.enjoyLoop]
  | cons a rest ih =>
    intro st u
    unfold Tracker.enjoyLoop
    by_cases hm : Tracker.anchorMatches a = true
    · rw [if_pos hm]
      by_cases hs : a.url ∈ st.seen
      · rw [if_pos hs]; exact ih st u
      · rw [if_neg hs]
        dsimp only
        rw [List.count_cons]
        by_cases hu : a.url = u
        · have hnot : u ∉ (Tracker.enjoyLoop
              { st with seen := st.seen ++ [a.url] } rest).2 := by
            refine enjoyLoop_seen_not_notified rest _ u ?_
            exact hu ▸ List.mem_append_right _ (List.mem_singleton_self _)
          rw [List.count_eq_zero.mpr hnot]
          simp [hu]
        · have : (a.url == u) = false := beq_eq_false_iff_ne.mpr hu
          rw [this]
          simpa using ih _ u
    · rw [if_neg hm]; exact ih st u

theorem enjoyLoop_first_notifies (anchors : List Tracker.Anchor) :
    ∀ (st : Tracker.TState) (u : String), u ∉ st.seen →
      (∃ a ∈ anchors, Tracker.anchorMatches a = true ∧ a.url = u) →
      u ∈ (Tracker.enjoyLoop st anchors).2 := by
  induction anchors with
  | nil => intro st u _ h; simp at h
  | cons a rest ih =>
    intro st u hu hex
    obtain ⟨b, hb, hbm, hbu⟩ := hex
    unfold Tracker.enjoyLoop
    by_cases hm : Tracker.anchorMatches a = true
    · rw [if_pos hm]
      by_cases hs : a.url ∈ st.seen
      · rw [if_pos hs]
        rcases List.mem_cons.mp hb with rfl | hb2
        · exact absurd (hbu ▸ hs) hu
        · exact ih st u hu ⟨b, hb2, hbm, hbu⟩
      · rw [if_neg hs]
        dsimp only
        by_cases huu : u = a.url
        · exact huu ▸ List.mem_cons_self _ _
        · rcases List.mem_cons.mp hb with rfl | hb2
          · exact absurd hbu.symm huu
          · refine List.mem_cons_of_mem _ ?_
            refine ih _ u ?_ ⟨b, hb2, hbm, hbu⟩
            simp only [List.mem_append, List.mem_singleton, not_or]
            exact ⟨hu, huu⟩
    · rw [if_neg hm]
      rcases List.mem_cons.mp hb with rfl | hb2
      · exact absurd hbm hm
      · exact ih st u hu ⟨b, hb2, hbm, hbu⟩

theorem check_enjoy365_seen_pfx (st : Tracker.TState)
    (fetch : Option (List Tracker.Anchor)) :
    st.seen <+: (Tracker.check_enjoy365 st fetch).1.seen := by
  cases fetch with
  | none =>
    unfold Tracker.check_enjoy365
    split_ifs <;> exact List.prefix_rfl
  | some anchors => exact enjoyLoop_seen_pfx anchors st

theorem check_enjoy365_seen_not_notified (st : Tracker.TState)
    (fetch : Option (List Tracker.Anchor)) (u : String) (hu : u ∈ st.seen) :
    u ∉ (Tracker.check_enjoy365 st fetch).2 := by
  cases fetch with
  | none =>
    unfold Tracker.check_enjoy365
    split_ifs <;> exact List.not_mem_nil u
  | some anchors => exact enjoyLoop_seen_not_notified anchors st u hu

theorem enjoyRuns_seen_pfx (inputs : List (Option (List Tracker.Anchor))) :
    ∀ st : Tracker.TState, st.seen <+: (Tracker.enjoyRuns st inputs).1.seen := by
  induction inputs with
  | nil => intro st; exact List.prefix_rfl
  | cons f fs ih =>
    intro st
    unfold Tracker.enjoyRuns
    exact List.IsPrefix.trans (check_enjoy365_seen_pfx st f) (ih _)

theorem enjoyRuns_count_zero (inputs : List (Option (List Tracker.Anchor))) :
    ∀ (st : Tracker.TState) (u : String), u ∈ st.seen →
      (Tracker.enjoyRuns st inputs).2.count u = 0 := by
  induction inputs with
  | nil => intro st u _; simp [Tracker.enjoyRuns]
  | cons f fs ih =>
    intro st u hu
    unfold Tracker.enjoyRuns
    dsimp only
    rw [List.count_append]
    rw [List.count_eq_zero.mpr (check_enjoy365_seen_not_notified st f u hu)]
    rw [ih _ u ((check_enjoy365_seen_pfx st f).subset hu)]

theorem check_enjoy365_notified_seen (st : Tracker.TState)
    (fetch : Option (List Tracker.Anchor)) (u : String)
    (hu : u ∈ (Tracker.check_enjoy365 st fetch).2) :
    u ∈ (Tracker.check_enjoy365 st fetch).1.seen := by
  cases fetch with
  | none =>
    exfalso
    revert hu
    unfold Tracker.check_enjoy365
    split_ifs <;> exact List.not_mem_nil u
  | some anchors => exact enjoyLoop_notified_seen anchors st u hu

theorem check_enjoy365_count_le_one (st : Tracker.TState)
    (fetch : Option (List Tracker.Anchor)) (u : String) :
    (Tracker.check_enjoy365 st fetch).2.count u ≤ 1 := by
  cases fetch with
  | none =>
    unfold Tracker.check_enjoy365
    split_ifs <;> simp
  | some anchors => exact enjoyLoop_count_le_one anchors st u

theorem enjoyRuns_count_le_one (inputs : List (Option (List Tracker.Anchor))) :
    ∀ (st : Tracker.TState) (u : String),
      (Tracker.enjoyRuns st inputs).2.count u ≤ 1 := by
  induction inputs with
  | nil => intro st u; simp [Tracker.enjoyRuns]
  | cons f fs ih =>
    intro st u
    unfold Tracker.enjoyRuns
    dsimp only
    rw [List.count_append]
    by_cases hmem : u ∈ (Tracker.check_enjoy365 st f).2
    · have h2 : (Tracker.enjoyRuns (Tracker.check_enjoy365 st f).1 fs).2.count u = 0 :=
        enjoyRuns_count_zero fs _ u (check_enjoy365_notified_seen st f u hmem)
      rw [h2]
      simpa using check_enjoy365_count_le_one st f u
    · rw [List.count_eq_zero.mpr hmem]
      simpa using ih _ u

theorem check_source_seen_eq (st : Tracker.TState) (name : String)
    (fetch : Option Tracker.Page) (r : Tracker.TState × Bool)
    (h : Tracker.check_source st name fetch = .ok r) : r.1.seen = st.seen := by
  cases fetch with
  | none =>
    unfold Tracker.check_source at h
    dsimp only at h
    split_ifs at h <;> (obtain rfl := Except.ok.inj h; rfl)
  | some pg =>
    unfold Tracker.check_source at h
    dsimp only at h
    split_ifs at h with ha
    · split at h
      · exact absurd h (by simp)
      · obtain rfl := Except.ok.inj h; rfl
      · obtain rfl := Except.ok.inj h; rfl
    · obtain rfl := Except.ok.inj h; rfl

/-- C9: in the link-discovery variant, each discovered item URL is
notified at most once over the target's whole lifetime: within a poll, a
matching anchor whose resolved URL is not yet in the seen-set is
notified and appended to the set; once in the set it is never notified
again in any later poll; across any sequence of polls the notification
count per URL is at most one; and the seen-set only ever grows — every
operation (`check_enjoy365` with or without a successful fetch, any poll
sequence, and `check_source`) preserves the existing entries. -/
theorem seen_set_monotone_once :
    (∀ (st : Tracker.TState) (fetch : Option (List Tracker.Anchor)),
        st.seen <+: (Tracker.check_enjoy365 st fetch).1.seen)
    ∧ (∀ (st : Tracker.TState) (name : String) (fetch : Option Tracker.Page)
        (r : Tracker.TState × Bool),
        Tracker.check_source st name fetch = .ok r → r.1.seen = st.seen)
    ∧ (∀ (st : Tracker.TState) (inputs : List (Option (List Tracker.Anchor))),
        st.seen <+: (Tracker.enjoyRuns st inputs).1.seen)
    ∧ (∀ (st : Tracker.TState) (inputs : List (Option (List Tracker.Anchor)))
        (u : String), u ∈ st.seen → (Tracker.enjoyRuns st inputs).2.count u = 0)
    ∧ (∀ (st : Tracker.TState) (inputs : List (Option (List Tracker.Anchor)))
        (u : String), (Tracker.enjoyRuns st inputs).2.count u ≤ 1)
    ∧ (∀ (st : Tracker.TState) (anchors : List Tracker.Anchor) (u : String),
        u ∉ st.seen →
        (∃ a ∈ anchors, Tracker.anchorMatches a = true ∧ a.url = u) →
        u ∈ (Tracker.enjoyLoop st anchors).2
          ∧ u ∈ (Tracker.enjoyLoop st anchors).1.seen) := by
  refine ⟨check_enjoy365_seen_pfx, check_source_seen_eq,
    fun st inputs => enjoyRuns_seen_pfx inputs st,
    fun st inputs u hu => enjoyRuns_count_zero inputs st u hu,
    fun st inputs u => enjoyRuns_count_le_one inputs st u, ?_⟩
  intro st anchors u hu hex
  have h1 := enjoyLoop_first_notifies anchors st u hu hex
  exact ⟨h1, enjoyLoop_notified_seen anchors st u h1⟩

/-- C9 witness: a fresh URL with a matching anchor text is notified on
its first poll, and a URL already in the seen-set is never notified over
a later run sequence. -/
theorem seen_set_monotone_once_witness :
    ("u1" ∈ (Tracker.enjoyLoop ⟨[], []⟩ [⟨"Garmin Forerunner 965", "u1"⟩]).2)
    ∧ (Tracker.enjoyRuns ⟨["u2"], []⟩
        [some [⟨"garmin", "u2"⟩], some [⟨"garmin", "u2"⟩]]).2.count "u2" = 0 := by
  constructor
  · refine (seen_set_monotone_once.2.2.2.2.2 ⟨[], []⟩ _ "u1" (by simp) ?_).1
    exact ⟨⟨"Garmin Forerunner 965", "u1"⟩, List.mem_singleton_self _, by decide, rfl⟩
  · exact seen_set_monotone_once.2.2.2.1 ⟨["u2"], []⟩ _ "u2" (List.mem_singleton_self _)

theorem extract_prices_ge (ms : List Tracker.PriceToken) :
    ∀ l : List ℚ, Tracker.extract_prices ms = .ok l →
      ∀ v ∈ l, Tracker.MIN_REASONABLE_PRICE ≤ v := by
  induction ms with
  | nil =>
    intro l h v hv
    obtain rfl := Except.ok.inj h
    simp at hv
  | cons m rest ih =>
    intro l h v hv
    unfold Tracker.extract_prices at h
    cases hm : Tracker.tokenVal m with
    | none => rw [hm] at h; exact absurd h (by simp)
    | some w =>
      rw [hm] at h
      dsimp only at h
      cases he : Tracker.extract_prices rest with
      | error e => rw [he] at h; exact absurd h (by simp)
      | ok l2 =>
        rw [he] at h
        dsimp only at h
        obtain rfl := Except.ok.inj h
        by_cases hw : Tracker.MIN_REASONABLE_PRICE ≤ w
        · rw [if_pos hw] at hv
          rcases List.mem_cons.mp hv with rfl | hv2
          · exact hw
          · exact ih l2 he v hv2
        · rw [if_neg hw] at hv
          exact ih l2 he v hv

theorem foldl_min_mem (ps : List ℚ) : ∀ p : ℚ, ps.foldl min p ∈ p :: ps := by
  induction ps with
  | nil => intro p; simp
  | cons b rest ih =>
    intro p
    rw [List.foldl_cons]
    rcases List.mem_cons.mp (ih (min p b)) with h | h
    · rw [h]
      rcases min_choice p b with hm | hm <;> rw [hm] <;> simp
    · simp [h]

/-- C10: every value `extract_prices` returns is at least
`MIN_REASONABLE_PRICE` (100.0) — parsed prices below the threshold are
silently dropped, after EUR amounts are first converted to CHF at the
fixed rate 0.97 — and consequently `check_source` can fire its deal
alarm only when some extracted price lies in the half-open window
`[100.0, 400.0)`. -/
theorem extract_prices_window :
    (∀ (ms : List Tracker.PriceToken) (l : List ℚ),
        Tracker.extract_prices ms = .ok l →
        ∀ v ∈ l, Tracker.MIN_REASONABLE_PRICE ≤ v)
    ∧ (∀ (m : Tracker.PriceToken) (q : ℚ),
        pyFloat (Tracker.cleanNum m.num) = some q → m.cur = "EUR" →
        Tracker.tokenVal m = some (q * Tracker.EUR_TO_CHF))
    ∧ (∀ (st : Tracker.TState) (name : String) (pg : Tracker.Page)
        (r : Tracker.TState × Bool),
        Tracker.check_source st name (some pg) = .ok r → r.2 = true →
        ∃ l, Tracker.extract_prices pg.tokens = .ok l ∧
          ∃ v ∈ l, Tracker.MIN_REASONABLE_PRICE ≤ v ∧ v < Tracker.PRICE_LIMIT) := by
  refine ⟨extract_prices_ge, ?_, ?_⟩
  · intro m q hq hcur
    unfold Tracker.tokenVal
    rw [hq, hcur]
    simp
  · intro st name pg r h hr
    unfold Tracker.check_source at h
    dsimp only at h
    split_ifs at h with ha
    · cases he : Tracker.extract_prices pg.tokens with
      | error e => rw [he] at h; exact absurd h (by simp)
      | ok l0 =>
        rw [he] at h
        cases l0 with
        | nil =>
          dsimp only at h
          obtain rfl := Except.ok.inj h
          simp at hr
        | cons p ps =>
          dsimp only at h
          obtain rfl := Except.ok.inj h
          have hlt : ps.foldl min p < Tracker.PRICE_LIMIT := of_decide_eq_true hr
          refine ⟨p :: ps, rfl, ps.foldl min p, foldl_min_mem ps p, ?_, hlt⟩
          exact extract_prices_ge pg.tokens (p :: ps) he _ (foldl_min_mem ps p)
    · obtain rfl := Except.ok.inj h
      simp at hr

/-- C10 witness: the single CHF 129.00 match survives extraction (it is
at least the 100-franc floor) and drives the alarm on an allowed shop
page, exhibiting a price inside the `[100, 400)` window. -/
theorem extract_prices_window_witness :
    Tracker.MIN_REASONABLE_PRICE ≤ (129 : ℚ)
    ∧ (∃ l, Tracker.extract_prices [⟨"CHF", "129.00"⟩] = .ok l ∧
        ∃ v ∈ l, Tracker.MIN_REASONABLE_PRICE ≤ v ∧ v < Tracker.PRICE_LIMIT) := by
  have hv : Tracker.tokenVal ⟨"CHF", "129.00"⟩ = some 129 := by
    have h : Tracker.tokenVal ⟨"CHF", "129.00"⟩
        = some (((129 : ℕ) : ℚ) + ((0 : ℕ) : ℚ) / 10 ^ 2) := rfl
    rw [h]
    norm_num
  have he : Tracker.extract_prices [⟨"CHF", "129.00"⟩] = .ok [129] := by
    simp only [Tracker.extract_prices, hv]
    rw [if_pos (by norm_num [Tracker.MIN_REASONABLE_PRICE])]
  have hc : Tracker.check_source ⟨[], []⟩ "Toppreise"
      (some ⟨"digitec offer", [⟨"CHF", "129.00"⟩]⟩) = .ok (⟨[], []⟩, true) := by
    unfold Tracker.check_source
    dsimp only
    rw [if_pos (show Tracker.shop_allowed "digitec offer" = true by decide)]
    rw [he]
    dsimp only
    rw [List.foldl_nil]
    rw [show decide ((129 : ℚ) < Tracker.PRICE_LIMIT) = true by decide]
  exact ⟨extract_prices_window.1 _ _ he 129 (List.mem_singleton_self _),
    extract_prices_window.2.2 _ _ _ _ hc rfl⟩

theorem pyFloatUnsigned_some_digit (l : List Char) (q : ℚ)
    (h : pyFloatUnsigned l = some q) : ∃ c ∈ l, c.isDigit = true := by
  unfold pyFloatUnsigned at h
  cases hd : l.dropWhile (fun c => c ≠ '.') with
  | nil =>
    rw [hd] at h
    dsimp only at h
    split_ifs at h with hc
    obtain ⟨hne, hall⟩ := hc
    obtain ⟨c, hc2⟩ := List.exists_mem_of_ne_nil _ hne
    exact ⟨c, (List.takeWhile_sublist _).subset hc2, List.all_eq_true.mp hall c hc2⟩
  | cons c0 frac =>
    rw [hd] at h
    dsimp only at h
    split_ifs at h with hc
    obtain ⟨hor, hint, hfrac⟩ := hc
    rcases hor with hne | hne
    · obtain ⟨c, hc2⟩ := List.exists_mem_of_ne_nil _ hne
      exact ⟨c, (List.takeWhile_sublist _).subset hc2, List.all_eq_true.mp hint c hc2⟩
    · obtain ⟨c, hc2⟩ := List.exists_mem_of_ne_nil _ hne
      have hmem : c ∈ l.dropWhile (fun c => c ≠ '.') := by
        rw [hd]; exact List.mem_cons_of_mem _ hc2
      exact ⟨c, (List.dropWhile_sublist _).subset hmem, List.all_eq_true.mp hfrac c hc2⟩

theorem pyFloat_none_of_no_digit (l : List Char)
    (h : ∀ c ∈ l, c.isDigit = false) : pyFloat l = none := by
  unfold pyFloat
  split_ifs with hh
  · cases hq : pyFloatUnsigned l.tail with
    | none => rfl
    | some q =>
      obtain ⟨c, hc, hdig⟩ := pyFloatUnsigned_some_digit _ q hq
      have hcl : c ∈ l := (List.tail_sublist l).subset hc
      exact absurd hdig (by simp [h c hcl])
  · cases hq : pyFloatUnsigned l with
    | none => rfl
    | some q =>
      obtain ⟨c, hc, hdig⟩ := pyFloatUnsigned_some_digit _ q hq
      exact absurd hdig (by simp [h c hc])

theorem map_dot_id (s : List Char) :
    s.map (fun c => if c = '.' then '.' else c) = s := by
  induction s with
  | nil => rfl
  | cons c cs ih =>
    rw [List.map_cons, ih]
    by_cases hc : c = '.'
    · rw [if_pos hc, hc]
    · rw [if_neg hc]

theorem codeNormalize_no_digit (s : List Char) (h : ∀ c ∈ s, c.isDigit = false) :
    ∀ c ∈ Canyon.codeNormalize s, c.isDigit = false := by
  have key : ∀ c ∈ Canyon.codeNormalize s, c = '.' ∨ c ∈ s := by
    intro c hc
    unfold Canyon.codeNormalize at hc
    dsimp only at hc
    split_ifs at hc <;>
      first
        | exact Or.inr hc
        | exact Or.inr (List.mem_of_mem_filter hc)
        | (obtain ⟨a, ha, rfl⟩ := List.mem_map.mp hc
           split_ifs with hd
           · exact Or.inl rfl
           · first
               | exact Or.inr (List.mem_of_mem_filter ha)
               | exact Or.inr ha)
  intro c hc
  rcases key c hc with rfl | hmem
  · decide
  · exact h c hmem

theorem firstIdx_mem (p : Char → Bool) :
    ∀ r : List Char, (∃ c ∈ r, p c = true) →
      ∃ i, Canyon.firstIdx p r = some i := by
  intro r
  induction r with
  | nil =>
    rintro ⟨c, hc, _⟩
    exact absurd hc (List.not_mem_nil c)
  | cons a rest ih =>
    rintro ⟨c, hc, hp⟩
    by_cases ha : p a = true
    · exact ⟨0, by unfold Canyon.firstIdx; rw [if_pos ha]⟩
    · rcases List.mem_cons.mp hc with rfl | hc2
      · exact absurd hp ha
      · obtain ⟨i, hi⟩ := ih ⟨c, hc2, hp⟩
        exact ⟨i + 1, by unfold Canyon.firstIdx; rw [if_neg ha, hi]; rfl⟩

theorem lastSep_core :
    ∀ r : List Char, '.' ∈ r → ',' ∈ r →
      ∃ i j, Canyon.firstIdx (fun x => x == '.') r = some i
        ∧ Canyon.firstIdx (fun x => x == ',') r = some j
        ∧ (r.find? (fun c => c == '.' || c == ',') = some '.' ↔ i < j) := by
  intro r
  induction r with
  | nil => intro hd _; exact absurd hd (List.not_mem_nil _)
  | cons a rest ih =>
    intro hd hc
    by_cases hadot : a = '.'
    · subst hadot
      have hc2 : ',' ∈ rest := by
        rcases List.mem_cons.mp hc with h | h
        · exact absurd h (by decide)
        · exact h
      obtain ⟨j, hj⟩ := firstIdx_mem (fun x => x == ',') rest ⟨',', hc2, by decide⟩
      refine ⟨0, j + 1, ?_, ?_, ?_⟩
      · unfold Canyon.firstIdx; rw [if_pos (by decide)]
      · unfold Canyon.firstIdx; rw [if_neg (by decide), hj]; rfl
      · rw [List.find?_cons_of_pos _ (by decide)]
        simp
    · by_cases hacom : a = ','
      · subst hacom
        have hd2 : '.' ∈ rest := by
          rcases List.mem_cons.mp hd with h | h
          · exact absurd h (by decide)
          · exact h
        obtain ⟨i, hi⟩ := firstIdx_mem (fun x => x == '.') rest ⟨'.', hd2, by decide⟩
        refine ⟨i + 1, 0, ?_, ?_, ?_⟩
        · unfold Canyon.firstIdx; rw [if_neg (by decide), hi]; rfl
        · unfold Canyon.firstIdx; rw [if_pos (by decide)]
        · rw [List.find?_cons_of_pos _ (by decide)]
          simp only [Option.some.injEq]
          constructor
          · intro h; exact absurd h (by decide)
          · intro h; exact absurd h (by omega)
      · have hd2 : '.' ∈ rest := by
          rcases List.mem_cons.mp hd with h | h
          · exact absurd h.symm hadot
          · exact h
        have hc2 : ',' ∈ rest := by
          rcases List.mem_cons.mp hc with h | h
          · exact absurd h.symm hacom
          · exact h
        obtain ⟨i, j, hi, hj, hiff⟩ := ih hd2 hc2
        refine ⟨i + 1, j + 1, ?_, ?_, ?_⟩
        · unfold Canyon.firstIdx
          rw [if_neg (by simp [hadot]), hi]; rfl
        · unfold Canyon.firstIdx
          rw [if_neg (by simp [hacom]), hj]; rfl
        · rw [List.find?_cons_of_neg _ (by simp [hadot, hacom])]
          rw [hiff]
          omega

theorem lastSeparator_both (s : List Char) (hd : '.' ∈ s) (hc : ',' ∈ s) :
    (Canyon.lastSeparator s = some '.' ↔ Canyon.rfind s '.' > Canyon.rfind s ',')
    ∧ (Canyon.lastSeparator s = some '.' ∨ Canyon.lastSeparator s = some ',') := by
  obtain ⟨i, j, hi, hj, hiff⟩ :=
    lastSep_core s.reverse (List.mem_reverse.mpr hd) (List.mem_reverse.mpr hc)
  have hfd : Canyon.rfind s '.' = (s.length : Int) - 1 - i := by
    unfold Canyon.rfind; rw [hi]
  have hfc : Canyon.rfind s ',' = (s.length : Int) - 1 - j := by
    unfold Canyon.rfind; rw [hj]
  constructor
  · unfold Canyon.lastSeparator
    rw [hfd, hfc]
    constructor
    · intro h
      have := hiff.mp h
      omega
    · intro h
      exact hiff.mpr (by omega)
  · unfold Canyon.lastSeparator
    cases hfind : s.reverse.find? (fun c => c == '.' || c == ',') with
    | none =>
      exact absurd (List.find?_eq_none.mp hfind '.' (List.mem_reverse.mpr hd)) (by simp)
    | some x =>
      have hx := List.find?_some hfind
      simp only [Bool.or_eq_true, beq_iff_eq] at hx
      rcases hx with rfl | rfl
      · exact Or.inl rfl
      · exact Or.inr rfl

theorem lastSeparator_dot_only (s : List Char) (hd : '.' ∈ s) (hc : ',' ∉ s) :
    Canyon.lastSeparator s = some '.' := by
  unfold Canyon.lastSeparator
  cases hfind : s.reverse.find? (fun c => c == '.' || c == ',') with
  | none =>
    exact absurd (List.find?_eq_none.mp hfind '.' (List.mem_reverse.mpr hd)) (by simp)
  | some x =>
    have hx := List.find?_some hfind
    have hmem := List.mem_of_find?_eq_some hfind
    simp only [Bool.or_eq_true, beq_iff_eq] at hx
    rcases hx with rfl | rfl
    · rfl
    · exact absurd (List.mem_reverse.mp hmem) hc

theorem lastSeparator_comma_only (s : List Char) (hd : '.' ∉ s) (hc : ',' ∈ s) :
    Canyon.lastSeparator s = some ',' := by
  unfold Canyon.lastSeparator
  cases hfind : s.reverse.find? (fun c => c == '.' || c == ',') with
  | none =>
    exact absurd (List.find?_eq_none.mp hfind ',' (List.mem_reverse.mpr hc)) (by simp)
  | some x =>
    have hx := List.find?_some hfind
    have hmem := List.mem_of_find?_eq_some hfind
    simp only [Bool.or_eq_true, beq_iff_eq] at hx
    rcases hx with rfl | rfl
    · exact absurd (List.mem_reverse.mp hmem) hd
    · rfl

theorem lastSeparator_none_of_no_sep (s : List Char) (hd : '.' ∉ s) (hc : ',' ∉ s) :
    Canyon.lastSeparator s = none := by
  unfold Canyon.lastSeparator
  rw [List.find?_eq_none]
  intro x hx
  simp only [Bool.or_eq_true, beq_iff_eq, not_or]
  constructor
  · rintro rfl; exact hd (List.mem_reverse.mp hx)
  · rintro rfl; exact hc (List.mem_reverse.mp hx)

theorem endsDigit_eq_specDot (s : List Char) :
    Canyon.endsDigitDotTwoDigits s = Canyon.specDotIsDecimal true s := by
  unfold Canyon.endsDigitDotTwoDigits Canyon.specDotIsDecimal
  cases s.reverse with
  | nil => rfl
  | cons c1 r1 =>
    cases r1 with
    | nil => rfl
    | cons c2 r2 =>
      cases r2 with
      | nil => rfl
      | cons c3 r3 =>
        cases r3 with
        | nil => simp
        | cons c4 r4 => simp

theorem codeNormalize_eq_specNormalize (s : List Char) :
    Canyon.codeNormalize s = Canyon.specNormalize true s := by
  by_cases hd : '.' ∈ s <;> by_cases hc : ',' ∈ s
  · obtain ⟨hiff, hor⟩ := lastSeparator_both s hd hc
    have hcd : s.contains '.' = true := List.elem_iff.mpr hd
    have hcn : s.contains ',' = true := List.elem_iff.mpr hc
    rcases hor with hls | hls
    · have hgt := hiff.mp hls
      have hcode : Canyon.codeNormalize s = s.filter (fun c => c ≠ ',') := by
        unfold Canyon.codeNormalize
        rw [if_pos (by rw [hcd, hcn]; rfl)]
        dsimp only
        rw [if_pos hgt, if_pos rfl]
        exact map_dot_id _
      have hspec : Canyon.specNormalize true s = s.filter (fun c => c ≠ ',') := by
        unfold Canyon.specNormalize
        rw [if_pos hls, if_pos hcn]
      rw [hcode, hspec]
    · have hngt : ¬ (Canyon.rfind s '.' > Canyon.rfind s ',') := by
        intro h
        have h2 := hiff.mpr h
        rw [hls] at h2
        exact absurd (Option.some.inj h2) (by decide)
      have hcode : Canyon.codeNormalize s
          = (s.filter (fun c => c ≠ '.')).map (fun c => if c = ',' then '.' else c) := by
        unfold Canyon.codeNormalize
        rw [if_pos (by rw [hcd, hcn]; rfl)]
        dsimp only
        rw [if_neg hngt, if_neg (by decide)]
      have hspec : Canyon.specNormalize true s
          = (s.filter (fun c => c ≠ '.')).map (fun c => if c = ',' then '.' else c) := by
        unfold Canyon.specNormalize
        rw [if_neg (by rw [hls]; decide), if_pos hls, if_pos hcd]
      rw [hcode, hspec]
  · have hcd : s.contains '.' = true := List.elem_iff.mpr hd
    have hcn : s.contains ',' = false :=
      Bool.eq_false_iff.mpr (fun h => hc (List.elem_iff.mp h))
    have hcode : Canyon.codeNormalize s
        = if Canyon.endsDigitDotTwoDigits s then s
          else s.filter (fun c => c ≠ '.') := by
      unfold Canyon.codeNormalize
      rw [if_neg (by rw [hcd, hcn]; decide), if_neg (by rw [hcn]; decide), if_pos hcd]
    have hspec : Canyon.specNormalize true s
        = if Canyon.specDotIsDecimal true s then s
          else s.filter (fun c => c ≠ '.') := by
      unfold Canyon.specNormalize
      rw [if_pos (lastSeparator_dot_only s hd hc), if_neg (by rw [hcn]; decide)]
    rw [hcode, hspec, endsDigit_eq_specDot]
  · have hcd : s.contains '.' = false :=
      Bool.eq_false_iff.mpr (fun h => hd (List.elem_iff.mp h))
    have hcn : s.contains ',' = true := List.elem_iff.mpr hc
    have hcode : Canyon.codeNormalize s
        = s.map (fun c => if c = ',' then '.' else c) := by
      unfold Canyon.codeNormalize
      rw [if_neg (by rw [hcd, hcn]; decide), if_pos hcn]
    have hspec : Canyon.specNormalize true s
        = s.map (fun c => if c = ',' then '.' else c) := by
      unfold Canyon.specNormalize
      rw [if_neg (by rw [lastSeparator_comma_only s hd hc]; decide),
        if_pos (lastSeparator_comma_only s hd hc), if_neg (by rw [hcd]; decide)]
    rw [hcode, hspec]
  · have hcd : s.contains '.' = false :=
      Bool.eq_false_iff.mpr (fun h => hd (List.elem_iff.mp h))
    have hcn : s.contains ',' = false :=
      Bool.eq_false_iff.mpr (fun h => hc (List.elem_iff.mp h))
    have hcode : Canyon.codeNormalize s = s := by
      unfold Canyon.codeNormalize
      rw [if_neg (by rw [hcd, hcn]; decide), if_neg (by rw [hcn]; decide),
        if_neg (by rw [hcd]; decide)]
    have hspec : Canyon.specNormalize true s = s := by
      unfold Canyon.specNormalize
      rw [if_neg (by rw [lastSeparator_none_of_no_sep s hd hc]; decide),
        if_neg (by rw [lastSeparator_none_of_no_sep s hd hc]; decide)]
    rw [hcode, hspec]

/-- C5 amended: `parse_price` behaves per the spec's separator heuristic
in every clause but one — after stripping to digits, dots, commas and
minus signs, with both separators present the last-occurring one is the
decimal separator and the other is dropped as grouping; a lone comma is
the decimal separator; the result is `None` when no digits remain or the
normalised string fails to parse — and in the lone-dot clause the dot is
the decimal separator exactly when it is *preceded by a digit* and
followed by exactly two trailing digits (the regex `\d+\.\d{2}$`), not
merely followed by two trailing digits as claimed. -/
theorem parse_price_eq_spec (raw : String) :
    Canyon.parse_price raw = Canyon.specParsePrice true raw := by
  unfold Canyon.parse_price Canyon.specParsePrice
  by_cases hraw : raw = ""
  · subst hraw
    rw [if_pos rfl]
    rfl
  · rw [if_neg hraw]
    dsimp only
    by_cases hnil : raw.toList.filter Canyon.keepChar = []
    · rw [if_pos hnil, hnil]
      simp
    · rw [if_neg hnil]
      by_cases hdig : ∀ c ∈ raw.toList.filter Canyon.keepChar, c.isDigit = false
      · rw [if_pos (by
          rw [List.all_eq_true]
          intro x hx
          rw [hdig x hx]
          rfl)]
        exact pyFloat_none_of_no_digit _ (codeNormalize_no_digit _ hdig)
      · rw [if_neg (fun hall => hdig (fun c hcm => by
          have h2 := List.all_eq_true.mp hall c hcm
          simpa using h2))]
        rw [codeNormalize_eq_specNormalize]

/-- C5 counterexample: on the input ".99" the code removes the dot as a
thousands separator (the regex requires a digit before the dot) and
returns 99.0, while the claim's rule — the lone dot is decimal whenever
followed by exactly two trailing digits — yields 0.99. -/
theorem spec_dot_rule_counterexample :
    Canyon.parse_price ".99" = some 99
    ∧ Canyon.specParsePrice false ".99" = some (99 / 100)
    ∧ ((99 : ℚ) ≠ 99 / 100) := by
  refine ⟨?_, ?_, by norm_num⟩
  · have h : Canyon.parse_price ".99" = some ((99 : ℕ) : ℚ) := rfl
    rw [h]
    norm_num
  · have h : Canyon.specParsePrice false ".99"
        = some (((0 : ℕ) : ℚ) + ((99 : ℕ) : ℚ) / 10 ^ 2) := rfl
    rw [h]
    norm_num
